import Mathlib

/-!
Shallow embedding of the cloudbbq protocol codec (src/lib.rs, src/uuid.rs,
src/main.rs).

Modelling conventions:
* Bytes (`u8`) are naturals; theorems that depend on the `u8` range carry
  explicit `< 256` hypotheses.
* `f32` values are modelled by `F32`: either NaN or a finite value given
  as a rational. Two arithmetic layers are provided. The exact layer
  (`F32.mul`, `TEMPERATURE_MIN`/`TEMPERATURE_MAX`, `encode_temperature`)
  computes with exact rationals; it agrees with binary32 only where every
  intermediate value is exactly representable, and is used by claims
  whose hypotheses confine them to such domains. The bit-accurate layer
  (`rne`, `fl32`, `TEMPERATURE_MIN32`/`TEMPERATURE_MAX32`, `F32.mul32`,
  `encode_temperature32`) makes the binary32 round-to-nearest-ties-even
  rounding of the constants and of the multiplication explicit, and is
  the authority for boundary behaviour. NaN is modelled explicitly
  because the comparison and cast semantics of NaN are observable in
  `encode_temperature`. Infinities and subnormals never arise in the
  modelled code paths and are not modelled.
* `i16`/`u16` wire values are integers/naturals with explicit two's
  complement conversion, as in `i16::to_le_bytes` / `from_le_bytes`.
* The `assert!` calls in `SettingResult::try_parse` (a Rust panic) are
  modelled by the `Except.error` alternative of the parse result; `.ok r`
  means the Rust function returns normally with `r`.
* Each Bluetooth command method of `BBQDevice` performs exactly one
  characteristic write; its denotation here is that single `Write` record
  (the characteristic written to, and the byte payload).
-/

deriving instance DecidableEq for Except

namespace CloudBBQ

/-- Model of an `f32` value: NaN, or a finite value given as an exact
rational. -/
inductive F32 where
  | nan : F32
  | finite (val : ℚ) : F32
deriving DecidableEq

/-- Rust `<` on `f32` (IEEE partial order): false whenever an operand is
NaN, exact comparison on finite values. -/
def F32.flt : F32 → F32 → Bool
  | .finite a, .finite b => decide (a < b)
  | _, _ => false

/-- Rust `>` on `f32`. -/
def F32.fgt (a b : F32) : Bool := F32.flt b a

/-- Rust `*` on `f32`, exact-arithmetic idealization: NaN propagates;
finite values multiply exactly. Faithful to binary32 only where the
product is exactly representable; `F32.mul32` below models the rounding. -/
def F32.mul : F32 → F32 → F32
  | .finite a, .finite b => .finite (a * b)
  | _, _ => .nan

/-- Truncation toward zero of a rational (the rounding used by Rust's
float-to-integer `as` cast). -/
def ratTrunc (q : ℚ) : ℤ := if 0 ≤ q then ⌊q⌋ else ⌈q⌉

/-- Rust `as i16` on an `f32`: NaN casts to 0, finite values truncate
toward zero and saturate to `[i16::MIN, i16::MAX]`. -/
def F32.as_i16 : F32 → ℤ
  | .nan => 0
  | .finite q => max (-32768) (min 32767 (ratTrunc q))

/-- Rust `i16::to_le_bytes`: two's complement, little endian. -/
def i16_to_le_bytes (z : ℤ) : ℕ × ℕ :=
  let u := (z % 65536).toNat
  (u % 256, u / 256)

/-- Rust `i16::from_le_bytes`: little endian, two's complement. -/
def i16_from_le_bytes (b0 b1 : ℕ) : ℤ :=
  let u := b0 + 256 * b1
  if u < 32768 then (u : ℤ) else (u : ℤ) - 65536

/-- Rust `u16::from_le_bytes`. -/
def u16_from_le_bytes (b0 b1 : ℕ) : ℕ := b0 + 256 * b1

-- Constants from src/lib.rs.

def SET_TARGET_TEMP_COMMAND : ℕ := 0x01
def SET_UNIT_COMMAND : ℕ := 0x02
def REAL_TIME_DATA_COMMAND : ℕ := 0x0B
def REQUEST_PROPERTY_COMMAND : ℕ := 0x08

def UNITS_CELCIUS_ARGUMENT : ℕ := 0x00
def UNITS_FAHRENHEIT_ARGUMENT : ℕ := 0x01

def SILENCE_PRESSED : ℕ := 0x04
def BATTERY_LEVEL_PROPERTY_ID : ℕ := 0x24
def ACKNOWLEDGE_COMMAND : ℕ := 0xFF

def ABSENT_PROBE_VALUE : ℚ := -1
def TARGET_TEMP_NONE : ℚ := -300
/-- The exact quotient `i16::MAX / 10`. The program computes
`i16::MAX as f32 / 10.0`, which rounds; the rounded constant the program
actually compares against is `TEMPERATURE_MAX32` below. -/
def TEMPERATURE_MAX : ℚ := 32767 / 10
/-- The exact quotient `i16::MIN / 10`; the program actually uses the
rounded `TEMPERATURE_MIN32` below. -/
def TEMPERATURE_MIN : ℚ := -32768 / 10

def CREDENTIAL_MSG : List ℕ :=
  [0x21, 0x07, 0x06, 0x05, 0x04, 0x03, 0x02, 0x01, 0xb8, 0x22, 0x00, 0x00,
   0x00, 0x00, 0x00]

/-- Rust `Error::TemperatureEncodingError(f32)` (the only error constructed by
the modelled code paths). -/
inductive Error where
  | temperatureEncodingError (t : F32) : Error
deriving DecidableEq

/-- Rust `encode_temperature` from src/lib.rs, exact-arithmetic
idealization: compares against the exact quotient constants and
multiplies exactly. It agrees with the program exactly on inputs whose
guard comparison and product are unaffected by binary32 rounding (in
particular wherever every intermediate value is representable);
`encode_temperature32` below is the bit-accurate binary32 model, which
is the authority at the range boundary. -/
def encode_temperature (temperature : F32) : Except Error (ℕ × ℕ) :=
  if temperature.flt (.finite TEMPERATURE_MIN) ||
      temperature.fgt (.finite TEMPERATURE_MAX) then
    .error (.temperatureEncodingError temperature)
  else
    .ok (i16_to_le_bytes (F32.as_i16 (temperature.mul (.finite 10))))

/-- Rust `decode_temperature` from src/lib.rs (always finite: a 16-bit integer
divided by 10 is exactly representable behaviour-wise, see header). -/
def decode_temperature (b0 b1 : ℕ) : ℚ := (i16_from_le_bytes b0 b1 : ℚ) / 10

/-- Rust `RealTimeData` from src/lib.rs: one optional Celsius temperature per
probe. -/
structure RealTimeData where
  probe_temperatures : List (Option ℚ)
deriving DecidableEq

/-- The body of the `chunks_exact(2).map(...)` pipeline in
`RealTimeData::try_parse`: decode each 2-byte chunk, map the absent-probe
sentinel to `none`. A trailing odd byte is ignored (as `chunks_exact`
ignores the remainder); the caller has already excluded that case. -/
def parseProbeChunks : List ℕ → List (Option ℚ)
  | b0 :: b1 :: rest =>
      (if decode_temperature b0 b1 = ABSENT_PROBE_VALUE then none
       else some (decode_temperature b0 b1)) :: parseProbeChunks rest
  | _ => []

/-- Rust `RealTimeData::try_parse` from src/lib.rs. -/
def RealTimeData.try_parse (value : List ℕ) : Option RealTimeData :=
  if value.length % 2 ≠ 0 then none
  else some ⟨parseProbeChunks value⟩

/-- Rust `SettingResult` from src/lib.rs. -/
inductive SettingResult where
  | acknowledgeCommand (command_id : ℕ) : SettingResult
  | batteryLevel (current_voltage max_voltage : ℕ) : SettingResult
  | silencePressed : SettingResult
deriving DecidableEq

/-- Rust `SettingResult::try_parse` from src/lib.rs. `Except.error ()` models
the `assert!` panics on the two fixed-pattern checks; `.ok r` models a
normal return of `r`. -/
def SettingResult.try_parse (value : List ℕ) :
    Except Unit (Option SettingResult) :=
  match value with
  | [b0, b1, b2, b3, b4, b5] =>
    if b0 = ACKNOWLEDGE_COMMAND then
      if b2 = 0 ∧ b3 = 0 ∧ b4 = 0 ∧ b5 = 0 then
        .ok (some (.acknowledgeCommand b1))
      else .error ()
    else if b0 = BATTERY_LEVEL_PROPERTY_ID then
      .ok (some (.batteryLevel (u16_from_le_bytes b1 b2)
        (u16_from_le_bytes b3 b4)))
    else if b0 = SILENCE_PRESSED then
      if b1 = 0xFF ∧ b2 = 0 ∧ b3 = 0 ∧ b4 = 0 ∧ b5 = 0 then
        .ok (some .silencePressed)
      else .error ()
    else .ok none
  | _ => .ok none

/-- Rust `TemperatureUnit` from src/lib.rs. -/
inductive TemperatureUnit where
  | celcius : TemperatureUnit
  | fahrenheit : TemperatureUnit
deriving DecidableEq

/-- The five characteristics held by `BBQDevice`. -/
inductive Characteristic where
  | settingResult : Characteristic
  | accountAndVerify : Characteristic
  | historyData : Characteristic
  | realTimeData : Characteristic
  | settingData : Characteristic
deriving DecidableEq

/-- One characteristic write (`BluetoothSession::write_characteristic_value`
call): the characteristic written to and the byte payload. -/
structure Write where
  characteristic : Characteristic
  value : List ℕ
deriving DecidableEq

/-- Rust `BBQDevice::authenticate`: one write of the credential blob to the
account-and-verify characteristic. -/
def authenticate : Write :=
  ⟨.accountAndVerify, CREDENTIAL_MSG⟩

/-- Rust `BBQDevice::set_temperature_unit`: one write to the setting-data
characteristic. -/
def set_temperature_unit (unit : TemperatureUnit) : Write :=
  let argument := match unit with
    | .celcius => UNITS_CELCIUS_ARGUMENT
    | .fahrenheit => UNITS_FAHRENHEIT_ARGUMENT
  ⟨.settingData, [SET_UNIT_COMMAND, argument, 0, 0, 0, 0]⟩

/-- Rust `BBQDevice::enable_real_time_data`: one write to the setting-data
characteristic. -/
def enable_real_time_data (enable : Bool) : Write :=
  let argument := if enable then 0x01 else 0x00
  ⟨.settingData, [REAL_TIME_DATA_COMMAND, argument, 0, 0, 0, 0]⟩

/-- Rust `BBQDevice::request_battery_level`: one write to the setting-data
characteristic. -/
def request_battery_level : Write :=
  ⟨.settingData,
   [REQUEST_PROPERTY_COMMAND, BATTERY_LEVEL_PROPERTY_ID, 0, 0, 0, 0]⟩

/-- Rust `BBQDevice::set_target_range` from src/lib.rs: encode both bounds
(propagating the first encoding error, lower bound first), then perform
one write of the 6-byte packet to the setting-data characteristic. -/
def set_target_range (probe : ℕ) (low high : F32) : Except Error Write := do
  let bottom_bytes ← encode_temperature low
  let top_bytes ← encode_temperature high
  pure ⟨.settingData,
    [SET_TARGET_TEMP_COMMAND, probe, bottom_bytes.1, bottom_bytes.2,
     top_bytes.1, top_bytes.2]⟩

/-- Rust `BBQDevice::set_target_temp` from src/lib.rs. -/
def set_target_temp (probe : ℕ) (target : F32) : Except Error Write :=
  set_target_range probe (.finite TARGET_TEMP_NONE) target

-- src/uuid.rs

def BASE_UUID : ℕ := 0x0000000000001000800000805F9B34FB

/-- Rust `uuid16_to_uuid128` from src/uuid.rs: `((uuid16 as u128) << 96) +
BASE_UUID`, with the `u16` argument range and `u128` wrapping explicit. -/
def uuid16_to_uuid128 (uuid16 : ℕ) : ℕ :=
  ((uuid16 % 2 ^ 16) <<< 96 + BASE_UUID) % 2 ^ 128

/-- Uppercase hexadecimal digit character for a value in `[0, 15]`. -/
def hexDigitChar (n : ℕ) : Char :=
  if n < 10 then Char.ofNat (48 + n) else Char.ofNat (55 + n)

/-- Hexadecimal digits of `n`, least significant first (empty for 0). -/
def hexDigitsRev : ℕ → List Char
  | 0 => []
  | n + 1 => hexDigitChar ((n + 1) % 16) :: hexDigitsRev ((n + 1) / 16)
decreasing_by exact Nat.div_lt_self (Nat.succ_pos n) (by norm_num)

/-- Rust `format!` with `{:X}` and no padding: uppercase hexadecimal,
most significant digit first, `"0"` for 0. -/
def toHexString (n : ℕ) : List Char :=
  if n = 0 then [Char.ofNat 48] else (hexDigitsRev n).reverse

/-- Rust `format!` zero left-padding to a minimum width. -/
def hexPad (width n : ℕ) : List Char :=
  List.replicate (width - (toHexString n).length) (Char.ofNat 48) ++
    toHexString n

/-- Rust `uuid128_to_string` from src/uuid.rs:
`format!("\x7b:08X\x7d-\x7b:04X\x7d-\x7b:04X\x7d-\x7b:04X\x7d-\x7b:012X\x7d", u >> 96,
u >> 80 & 0xFFFF, u >> 64 & 0xFFFF, u >> 48 & 0xFFFF, u & 0xFFFFFFFFFFFF)`,
on the `u128` value (hence the `% 2 ^ 128` modelling the argument type). -/
def uuid128_to_string (uuid128 : ℕ) : List Char :=
  let u := uuid128 % 2 ^ 128
  hexPad 8 (u >>> 96) ++ Char.ofNat 45 ::
    (hexPad 4 (u >>> 80 &&& 0xFFFF) ++ Char.ofNat 45 ::
      (hexPad 4 (u >>> 64 &&& 0xFFFF) ++ Char.ofNat 45 ::
        (hexPad 4 (u >>> 48 &&& 0xFFFF) ++ Char.ofNat 45 ::
          hexPad 12 (u &&& 0xFFFFFFFFFFFF))))

/-- Value of a hexadecimal digit character (as accepted by Rust
`char::to_digit(16)`): `0-9`, `a-f`, `A-F`. -/
def hexDigitVal (c : Char) : Option ℕ :=
  if 48 ≤ c.toNat ∧ c.toNat ≤ 57 then some (c.toNat - 48)
  else if 97 ≤ c.toNat ∧ c.toNat ≤ 102 then some (c.toNat - 87)
  else if 65 ≤ c.toNat ∧ c.toNat ≤ 70 then some (c.toNat - 55)
  else none

/-- Accumulating digit loop of `u128::from_str_radix(_, 16)`. -/
def parseHexAcc : ℕ → List Char → Option ℕ
  | acc, [] => some acc
  | acc, c :: rest =>
    match hexDigitVal c with
    | some d => parseHexAcc (16 * acc + d) rest
    | none => none

/-- Rust `u128::from_str_radix(s, 16)`: an optional leading `+`, then a
nonempty run of hexadecimal digits; errors on an empty digit run, an
invalid character (including a leading `-`, which for an unsigned type
always fails), or a value exceeding `u128::MAX`. -/
def fromStrRadix16 (s : List Char) : Option ℕ :=
  let digits := match s with
    | c :: rest => if c = Char.ofNat 43 then rest else s
    | [] => s
  if digits.isEmpty then none
  else match parseHexAcc 0 digits with
    | some v => if v < 2 ^ 128 then some v else none
    | none => none

/-- Rust `str::split('-')` on a character list: the (possibly empty)
segments between dashes. -/
def splitDash : List Char → List (List Char)
  | [] => [[]]
  | c :: rest =>
    if c = Char.ofNat 45 then [] :: splitDash rest
    else
      match splitDash rest with
      | [] => [[c]]
      | p :: ps => (c :: p) :: ps

/-- Rust `ParseUuidError` from src/uuid.rs. -/
inductive ParseUuidError where
  | parseInt : ParseUuidError
  | incomplete : ParseUuidError
deriving DecidableEq

/-- Rust `string_to_uuid128` from src/uuid.rs: split on `-`, parse every part
as hexadecimal `u128` (any failure is `ParseInt`), require exactly 5
parts, then reassemble with shifts and additions on `u128` (wrapping
arithmetic made explicit with `% 2 ^ 128`). -/
def string_to_uuid128 (s : List Char) : Except ParseUuidError ℕ :=
  match (splitDash s).mapM fromStrRadix16 with
  | none => .error .parseInt
  | some i =>
    match i with
    | [i0, i1, i2, i3, i4] =>
      .ok (((i0 <<< 96) % 2 ^ 128 + (i1 <<< 80) % 2 ^ 128 +
            (i2 <<< 64) % 2 ^ 128 + (i3 <<< 48) % 2 ^ 128 + i4) % 2 ^ 128)
    | _ => .error .incomplete

/-- Round half to even of a rational to an integer (the IEEE-754 default
rounding used by binary32 arithmetic). -/
def rne (y : ℚ) : ℤ :=
  if y - ⌊y⌋ < 1 / 2 then ⌊y⌋
  else if 1 / 2 < y - ⌊y⌋ then ⌊y⌋ + 1
  else if ⌊y⌋ % 2 = 0 then ⌊y⌋ else ⌊y⌋ + 1

/-- Round a rational to the nearest IEEE-754 binary32 value (round to
nearest, ties to even), for the normal range: round onto the mantissa
grid of the binade of the input. The code paths modelled here never
produce subnormal or out-of-range magnitudes, which are therefore not
special cased. -/
def fl32 (q : ℚ) : ℚ :=
  if q = 0 then 0
  else ((rne (q / 2 ^ (Int.log 2 |q| - 23)) : ℤ) : ℚ) *
    2 ^ (Int.log 2 |q| - 23)

/-- Rust `i16::MAX as f32 / 10.0` computed in binary32: the rounded
constant the program actually compares against. -/
def TEMPERATURE_MAX32 : ℚ := fl32 (32767 / 10)

/-- Rust `i16::MIN as f32 / 10.0` computed in binary32. -/
def TEMPERATURE_MIN32 : ℚ := fl32 (-32768 / 10)

/-- Rust `*` on `f32` with the binary32 rounding of the result made
explicit. -/
def F32.mul32 : F32 → F32 → F32
  | .finite a, .finite b => .finite (fl32 (a * b))
  | _, _ => .nan

/-- Bit-accurate binary32 model of Rust `encode_temperature` from
src/lib.rs: the range guard compares against the rounded constants and
the multiplication by 10 rounds its result, exactly as the `f32` program
does. -/
def encode_temperature32 (temperature : F32) : Except Error (ℕ × ℕ) :=
  if temperature.flt (.finite TEMPERATURE_MIN32) ||
      temperature.fgt (.finite TEMPERATURE_MAX32) then
    .error (.temperatureEncodingError temperature)
  else
    .ok (i16_to_le_bytes (F32.as_i16 (temperature.mul32 (.finite 10))))

-- Specification-side definitions (written from the claims' wording, for
-- comparison with the code-side definitions above).

/-- Slot mapping as worded in claim C3: one slot per 2-byte little-endian
chunk in payload order, each chunk decoded as a signed 16-bit integer
divided by 10, with wire value -10 mapped to an absent slot. -/
def realTimeSpecSlots : List ℕ → List (Option ℚ)
  | b0 :: b1 :: rest =>
      (if i16_from_le_bytes b0 b1 = -10 then none
       else some ((i16_from_le_bytes b0 b1 : ℚ) / 10)) :: realTimeSpecSlots rest
  | _ => []

/-- The exact set of inputs on which Rust `SettingResult::try_parse`
panics (fails an `assert!`): 6-byte payloads whose first byte selects the
acknowledge or silence branch but whose fixed-pattern padding bytes do not
match the expected constants. -/
def settingResultPanicCond : List ℕ → Prop
  | [b0, b1, b2, b3, b4, b5] =>
      (b0 = 0xFF ∧ ¬(b2 = 0 ∧ b3 = 0 ∧ b4 = 0 ∧ b5 = 0)) ∨
      (b0 = 0x04 ∧ ¬(b1 = 0xFF ∧ b2 = 0 ∧ b3 = 0 ∧ b4 = 0 ∧ b5 = 0))
  | _ => False

/-- Exact representability of a rational as a finite IEEE-754 binary32
value: a significand of magnitude below `2 ^ 24` scaled by a power of two
in the binary32 exponent range. -/
def representableF32 (q : ℚ) : Prop :=
  ∃ m : ℤ, ∃ e : ℤ, |m| < 2 ^ 24 ∧ -149 ≤ e ∧ e ≤ 104 ∧ q = m * (2 : ℚ) ^ e

-- Helper lemmas.

/-- Payloads whose length is not 6 parse to "no event" without panicking. -/
theorem try_parse_eq_of_length_ne_six {v : List ℕ} (h : v.length ≠ 6) :
    SettingResult.try_parse v = .ok none := by
  rcases v with _ | ⟨b0, v⟩
  · rfl
  rcases v with _ | ⟨b1, v⟩
  · rfl
  rcases v with _ | ⟨b2, v⟩
  · rfl
  rcases v with _ | ⟨b3, v⟩
  · rfl
  rcases v with _ | ⟨b4, v⟩
  · rfl
  rcases v with _ | ⟨b5, v⟩
  · rfl
  rcases v with _ | ⟨b6, v⟩
  · simp at h
  · rfl

/-- Characterization of the panicking inputs of `SettingResult::try_parse`. -/
theorem try_parse_error_iff (v : List ℕ) :
    SettingResult.try_parse v = .error () ↔ settingResultPanicCond v := by
  rcases v with _ | ⟨b0, v⟩
  · simp [SettingResult.try_parse, settingResultPanicCond]
  rcases v with _ | ⟨b1, v⟩
  · simp [SettingResult.try_parse, settingResultPanicCond]
  rcases v with _ | ⟨b2, v⟩
  · simp [SettingResult.try_parse, settingResultPanicCond]
  rcases v with _ | ⟨b3, v⟩
  · simp [SettingResult.try_parse, settingResultPanicCond]
  rcases v with _ | ⟨b4, v⟩
  · simp [SettingResult.try_parse, settingResultPanicCond]
  rcases v with _ | ⟨b5, v⟩
  · simp [SettingResult.try_parse, settingResultPanicCond]
  rcases v with _ | ⟨b6, v⟩
  · simp only [SettingResult.try_parse, settingResultPanicCond,
      ACKNOWLEDGE_COMMAND, BATTERY_LEVEL_PROPERTY_ID, SILENCE_PRESSED]
    split_ifs <;> simp_all
  · simp [SettingResult.try_parse, settingResultPanicCond]

-- Claim theorems.

/-- C1, counterexample: the claim asserts `SettingResult::try_parse` never
panics, in particular not on 6-byte inputs with first byte `0xFF` whose
padding bytes do not match the expected constants; but on
`[0xFF, 0x00, 0x01, 0x00, 0x00, 0x00]` the code fails its `assert!` and
panics (modelled by `Except.error ()`), so it returns neither
`Some(event)` nor `None` there. -/
theorem claim_C1_counterexample :
    SettingResult.try_parse [0xFF, 0x00, 0x01, 0x00, 0x00, 0x00] =
      .error () := by decide

/-- C1, amended: `RealTimeData::try_parse` is a total function from byte
sequences to an optional event; `SettingResult::try_parse` returns an
optional event for every input except that it panics (fails an `assert!`)
exactly on 6-byte inputs whose first byte is `0xFF` with bytes 2..5 not
all zero, or whose first byte is `0x04` with bytes 1..5 not equal to
`[0xFF, 0, 0, 0, 0]`. -/
theorem claim_C1_amended :
    (∀ value : List ℕ, RealTimeData.try_parse value = none ∨
      ∃ d, RealTimeData.try_parse value = some d) ∧
    (∀ value : List ℕ,
      (SettingResult.try_parse value = .error () ↔
        settingResultPanicCond value)) := by
  constructor
  · intro value
    rcases h : RealTimeData.try_parse value with _ | d
    · exact .inl rfl
    · exact .inr ⟨d, rfl⟩
  · exact try_parse_error_iff

/-- C4, counterexample: the claim asserts that a 6-byte input with first
byte `0x04` yields `SilencePressed`; but on
`[0x04, 0x00, 0x00, 0x00, 0x00, 0x00]` (padding not matching the expected
`[0xFF, 0, 0, 0, 0]` pattern) the code fails its `assert!` and panics
instead. -/
theorem claim_C4_counterexample :
    SettingResult.try_parse [0x04, 0x00, 0x00, 0x00, 0x00, 0x00] =
        .error () ∧
      SettingResult.try_parse [0x04, 0x00, 0x00, 0x00, 0x00, 0x00] ≠
        .ok (some .silencePressed) := by decide

/-- C4, amended: `SettingResult::try_parse` returns `None` for every input
whose length is not exactly 6; on a 6-byte input it dispatches on byte 0:
`0xFF` yields `AcknowledgeCommand` with the command id in byte 1 when
bytes 2..5 are all zero and panics otherwise; `0x24` yields
`BatteryLevel` with the current voltage read little-endian from bytes 1-2
and the maximum voltage from bytes 3-4; `0x04` yields `SilencePressed`
when bytes 1..5 are `[0xFF, 0, 0, 0, 0]` and panics otherwise; any other
first byte yields `None`; in particular
`[0x24, 0x5B, 0x17, 0x96, 0x19, 0x00]` parses to battery level 5979 of
6550. -/
theorem claim_C4_amended :
    (∀ value : List ℕ, value.length ≠ 6 →
      SettingResult.try_parse value = .ok none) ∧
    (∀ b1 b2 b3 b4 b5 : ℕ,
      SettingResult.try_parse [0xFF, b1, b2, b3, b4, b5] =
        if b2 = 0 ∧ b3 = 0 ∧ b4 = 0 ∧ b5 = 0 then
          .ok (some (.acknowledgeCommand b1))
        else .error ()) ∧
    (∀ b1 b2 b3 b4 b5 : ℕ,
      SettingResult.try_parse [0x24, b1, b2, b3, b4, b5] =
        .ok (some (.batteryLevel (b1 + 256 * b2) (b3 + 256 * b4)))) ∧
    (∀ b1 b2 b3 b4 b5 : ℕ,
      SettingResult.try_parse [0x04, b1, b2, b3, b4, b5] =
        if b1 = 0xFF ∧ b2 = 0 ∧ b3 = 0 ∧ b4 = 0 ∧ b5 = 0 then
          .ok (some .silencePressed)
        else .error ()) ∧
    (∀ b0 b1 b2 b3 b4 b5 : ℕ, b0 ≠ 0xFF → b0 ≠ 0x24 → b0 ≠ 0x04 →
      SettingResult.try_parse [b0, b1, b2, b3, b4, b5] = .ok none) ∧
    SettingResult.try_parse [0x24, 0x5B, 0x17, 0x96, 0x19, 0x00] =
      .ok (some (.batteryLevel 5979 6550)) := by
  refine ⟨fun value h => try_parse_eq_of_length_ne_six h, ?_, ?_, ?_, ?_, ?_⟩
  · intro b1 b2 b3 b4 b5
    simp [SettingResult.try_parse, ACKNOWLEDGE_COMMAND]
  · intro b1 b2 b3 b4 b5
    simp [SettingResult.try_parse, ACKNOWLEDGE_COMMAND,
      BATTERY_LEVEL_PROPERTY_ID, u16_from_le_bytes]
  · intro b1 b2 b3 b4 b5
    simp [SettingResult.try_parse, ACKNOWLEDGE_COMMAND,
      BATTERY_LEVEL_PROPERTY_ID, SILENCE_PRESSED]
  · intro b0 b1 b2 b3 b4 b5 h1 h2 h3
    simp [SettingResult.try_parse, ACKNOWLEDGE_COMMAND,
      BATTERY_LEVEL_PROPERTY_ID, SILENCE_PRESSED, h1, h2, h3]
  · decide

/-- C4, witness: a 3-byte payload has length different from 6 and parses
to "no event". -/
theorem claim_C4_witness :
    SettingResult.try_parse [0x01, 0x02, 0x03] = .ok none :=
  claim_C4_amended.1 [0x01, 0x02, 0x03] (by decide)

/-- C7: each session command performs exactly one characteristic write
with its fixed packet: `set_temperature_unit` writes
`[0x02, u, 0, 0, 0, 0]` (u = 0 Celsius, 1 Fahrenheit),
`enable_real_time_data` writes `[0x0B, e, 0, 0, 0, 0]` (e = 1 enable, 0
disable), `request_battery_level` writes `[0x08, 0x24, 0, 0, 0, 0]`, all
to the setting-data characteristic, and `authenticate` writes exactly the
fixed 15-byte credential blob to the account-and-verify characteristic. -/
theorem claim_C7 :
    set_temperature_unit .celcius =
        ⟨.settingData, [0x02, 0x00, 0, 0, 0, 0]⟩ ∧
      set_temperature_unit .fahrenheit =
        ⟨.settingData, [0x02, 0x01, 0, 0, 0, 0]⟩ ∧
      enable_real_time_data true = ⟨.settingData, [0x0B, 1, 0, 0, 0, 0]⟩ ∧
      enable_real_time_data false = ⟨.settingData, [0x0B, 0, 0, 0, 0, 0]⟩ ∧
      request_battery_level =
        ⟨.settingData, [0x08, 0x24, 0, 0, 0, 0]⟩ ∧
      authenticate = ⟨.accountAndVerify,
        [0x21, 0x07, 0x06, 0x05, 0x04, 0x03, 0x02, 0x01, 0xB8, 0x22,
         0x00, 0x00, 0x00, 0x00, 0x00]⟩ := by decide

/-- C9: `encode_temperature` applied to NaN returns `Ok` rather than the
out-of-range error, because the strict comparisons of the range guard are
false on NaN; the resulting bytes are the little-endian encoding of 0,
i.e. NaN silently encodes as 0.0 degrees Celsius. -/
theorem claim_C9 :
    encode_temperature F32.nan = .ok (0, 0) ∧
      i16_to_le_bytes 0 = (0, 0) ∧ decode_temperature 0 0 = 0 := by
  refine ⟨by decide, by decide, ?_⟩
  norm_num [decode_temperature, i16_from_le_bytes]

/-- A decoded chunk equals the absent-probe sentinel -1.0 exactly when its
wire value is -10. -/
theorem decode_eq_absent_iff (b0 b1 : ℕ) :
    decode_temperature b0 b1 = ABSENT_PROBE_VALUE ↔
      i16_from_le_bytes b0 b1 = -10 := by
  unfold decode_temperature ABSENT_PROBE_VALUE
  rw [div_eq_iff (by norm_num : (10 : ℚ) ≠ 0)]
  have h : ((-1 : ℚ) * 10) = ((-10 : ℤ) : ℚ) := by norm_num
  rw [h, Int.cast_inj]

/-- Truncation toward zero is the identity on integers. -/
theorem ratTrunc_intCast (n : ℤ) : ratTrunc (n : ℚ) = n := by
  unfold ratTrunc
  split_ifs <;> simp

/-- The `as i16` cast is the identity on integers already in range. -/
theorem as_i16_intCast (n : ℤ) (h1 : -32768 ≤ n) (h2 : n ≤ 32767) :
    F32.as_i16 (.finite (n : ℚ)) = n := by
  simp only [F32.as_i16, ratTrunc_intCast]
  omega

/-- Serializing an in-range `i16` little-endian and reading it back is the
identity. -/
theorem i16_le_bytes_roundtrip (z : ℤ) (h1 : -32768 ≤ z) (h2 : z ≤ 32767) :
    i16_from_le_bytes (i16_to_le_bytes z).1 (i16_to_le_bytes z).2 = z := by
  simp only [i16_to_le_bytes, i16_from_le_bytes, Nat.mod_add_div]
  split <;> omega

/-- The code's chunk pipeline computes exactly the claim's slot mapping. -/
theorem parseProbeChunks_eq_spec :
    ∀ v : List ℕ, parseProbeChunks v = realTimeSpecSlots v
  | [] => rfl
  | [_] => rfl
  | b0 :: b1 :: rest => by
    have h := decode_eq_absent_iff b0 b1
    simp only [parseProbeChunks, realTimeSpecSlots, parseProbeChunks_eq_spec rest]
    congr 1
    by_cases hz : i16_from_le_bytes b0 b1 = -10
    · rw [if_pos (h.2 hz), if_pos hz]
    · have hd : decode_temperature b0 b1 ≠ ABSENT_PROBE_VALUE :=
        fun hc => hz (h.1 hc)
      rw [if_neg hd, if_neg hz, decode_temperature]

/-- C3: `parse_real_time` returns `None` exactly when the input length is
odd; an empty input yields `Some` with an empty reading sequence;
otherwise the result has one slot per 2-byte little-endian chunk in
payload order, each chunk decoded as a signed int16 divided by 10 with
wire value -10 (`[0xF6, 0xFF]`, i.e. -1.0) mapped to an absent slot; in
particular `[1, 2, 3, 4]` parses to `[Some(51.3), Some(102.7)]`. -/
theorem claim_C3 :
    (∀ value : List ℕ,
      (RealTimeData.try_parse value = none ↔ value.length % 2 = 1)) ∧
    RealTimeData.try_parse [] = some ⟨[]⟩ ∧
    (∀ value : List ℕ, value.length % 2 = 0 →
      RealTimeData.try_parse value = some ⟨realTimeSpecSlots value⟩) ∧
    RealTimeData.try_parse [0xF6, 0xFF] = some ⟨[none]⟩ ∧
    RealTimeData.try_parse [0x01, 0x02, 0x03, 0x04] =
      some ⟨[some (513 / 10), some (1027 / 10)]⟩ := by
  have hspec : ∀ value : List ℕ, value.length % 2 = 0 →
      RealTimeData.try_parse value = some ⟨realTimeSpecSlots value⟩ := by
    intro value h
    simp [RealTimeData.try_parse, h, parseProbeChunks_eq_spec]
  refine ⟨?_, rfl, hspec, ?_, ?_⟩
  · intro value
    rcases Nat.mod_two_eq_zero_or_one value.length with h | h <;>
      simp [RealTimeData.try_parse, h]
  · rw [hspec [0xF6, 0xFF] (by decide)]
    norm_num [realTimeSpecSlots, i16_from_le_bytes]
  · rw [hspec [0x01, 0x02, 0x03, 0x04] (by decide)]
    norm_num [realTimeSpecSlots, i16_from_le_bytes]

/-- C3, witness: the even-length branch of the claim applied to the
concrete payload `[0x00, 0x00]`. -/
theorem claim_C3_witness :
    RealTimeData.try_parse [0x00, 0x00] =
      some ⟨realTimeSpecSlots [0x00, 0x00]⟩ :=
  claim_C3.2.2.1 [0x00, 0x00] (by decide)

/-- C2: for every Celsius value t such that t * 10 is an integer in
`[-32768, 32767]` and t is representable in binary32,
`encode_temperature t` returns Ok-wrapped bytes that
`decode_temperature` maps back to exactly t. -/
theorem claim_C2 (t : ℚ) (n : ℤ) (hn : t * 10 = (n : ℚ))
    (hlo : -32768 ≤ n) (hhi : n ≤ 32767) (hrep : representableF32 t) :
    ∃ b : ℕ × ℕ, encode_temperature (.finite t) = .ok b ∧
      decode_temperature b.1 b.2 = t := by
  clear hrep
  have hcast1 : (-32768 : ℚ) ≤ (n : ℚ) := by exact_mod_cast hlo
  have hcast2 : (n : ℚ) ≤ 32767 := by exact_mod_cast hhi
  have ht : t = (n : ℚ) / 10 := by
    rw [eq_div_iff (by norm_num : (10 : ℚ) ≠ 0)]; exact hn
  have hmin : ¬ t < TEMPERATURE_MIN := by
    unfold TEMPERATURE_MIN
    rw [not_lt]
    linarith
  have hmax : ¬ TEMPERATURE_MAX < t := by
    unfold TEMPERATURE_MAX
    rw [not_lt]
    linarith
  refine ⟨i16_to_le_bytes n, ?_, ?_⟩
  · unfold encode_temperature
    rw [if_neg]
    · have hm : F32.mul (.finite t) (.finite 10) = .finite ((n : ℤ) : ℚ) := by
        simp [F32.mul, hn]
      rw [hm, as_i16_intCast n hlo hhi]
    · simp [F32.flt, F32.fgt, hmin, hmax]
  · unfold decode_temperature
    rw [i16_le_bytes_roundtrip n hlo hhi]
    exact ht.symm

/-- C2, witness: the round trip at t = 0.5 (wire integer 5), a value
exactly representable in binary32. -/
theorem claim_C2_witness :
    ∃ b : ℕ × ℕ, encode_temperature (.finite (1 / 2)) = .ok b ∧
      decode_temperature b.1 b.2 = 1 / 2 :=
  claim_C2 (1 / 2) 5 (by norm_num) (by norm_num) (by norm_num)
    ⟨1, -1, by norm_num⟩

/-- Upper bound for truncation toward zero under a nonnegative integer
bound. -/
theorem ratTrunc_le_of_le {q : ℚ} {hi : ℤ} (h0 : 0 ≤ hi) (h : q ≤ (hi : ℚ)) :
    ratTrunc q ≤ hi := by
  unfold ratTrunc
  split_ifs with hq
  · calc ⌊q⌋ ≤ ⌊(hi : ℚ)⌋ := Int.floor_le_floor h
      _ = hi := Int.floor_intCast hi
  · calc ⌈q⌉ ≤ 0 := Int.ceil_le.2 (by push_cast; linarith [not_le.1 hq])
      _ ≤ hi := h0

/-- Lower bound for truncation toward zero under a nonpositive integer
bound. -/
theorem le_ratTrunc_of_le {q : ℚ} {lo : ℤ} (h0 : lo ≤ 0) (h : (lo : ℚ) ≤ q) :
    lo ≤ ratTrunc q := by
  unfold ratTrunc
  split_ifs with hq
  · calc lo ≤ 0 := h0
      _ ≤ ⌊q⌋ := Int.floor_nonneg.2 hq
  · calc lo = ⌈(lo : ℚ)⌉ := (Int.ceil_intCast lo).symm
      _ ≤ ⌈q⌉ := Int.ceil_le_ceil h

/-- On in-range finite inputs, `encode_temperature` multiplies by 10,
truncates toward zero and serializes little-endian (the saturation of the
cast never engages). -/
theorem encode_temperature_ok {q : ℚ} (h1 : TEMPERATURE_MIN ≤ q)
    (h2 : q ≤ TEMPERATURE_MAX) :
    encode_temperature (.finite q) =
      .ok (i16_to_le_bytes (ratTrunc (q * 10))) := by
  unfold TEMPERATURE_MIN at h1
  unfold TEMPERATURE_MAX at h2
  have hq1 : ((-32768 : ℤ) : ℚ) ≤ q * 10 := by push_cast; linarith
  have hq2 : q * 10 ≤ ((32767 : ℤ) : ℚ) := by push_cast; linarith
  have hb1 := le_ratTrunc_of_le (by norm_num) hq1
  have hb2 := ratTrunc_le_of_le (by norm_num) hq2
  unfold encode_temperature
  rw [if_neg]
  · simp only [F32.mul, F32.as_i16]
    congr 2
    omega
  · simp only [F32.flt, F32.fgt, Bool.or_eq_true, decide_eq_true_eq]
    unfold TEMPERATURE_MIN TEMPERATURE_MAX
    push_neg
    constructor <;> linarith

/-- Floor and the two rounding directions of round half to even at a
bracketed value: fraction below one half rounds down. -/
theorem rne_eq_low {y : ℚ} {f : ℤ} (hf1 : (f : ℚ) ≤ y) (hf2 : y < f + 1)
    (hr : y - f < 1 / 2) : rne y = f := by
  have hfl : ⌊y⌋ = f := Int.floor_eq_iff.2 ⟨hf1, by push_cast; linarith⟩
  unfold rne
  rw [hfl, if_pos hr]

/-- Round half to even at a bracketed value: fraction above one half
rounds up. -/
theorem rne_eq_high {y : ℚ} {f : ℤ} (hf1 : (f : ℚ) ≤ y) (hf2 : y < f + 1)
    (hr : 1 / 2 < y - f) : rne y = f + 1 := by
  have hfl : ⌊y⌋ = f := Int.floor_eq_iff.2 ⟨hf1, by push_cast; linarith⟩
  unfold rne
  rw [hfl, if_neg (by linarith), if_pos hr]

/-- Round half to even moves a value by at most one half. -/
theorem abs_rne_sub_le (y : ℚ) : |(rne y : ℚ) - y| ≤ 1 / 2 := by
  have h1 : (⌊y⌋ : ℚ) ≤ y := Int.floor_le y
  have h2 : y < ⌊y⌋ + 1 := Int.lt_floor_add_one y
  unfold rne
  split_ifs with ha hb hc <;> rw [abs_le] <;> constructor <;> push_cast <;>
    linarith

/-- Evaluation rule for `fl32`: bracketing the input in its binade fixes
the exponent, and the rounded mantissa gives the value. -/
theorem fl32_eq {x : ℚ} {e m : ℤ} (hx : x ≠ 0)
    (h1 : (2 : ℚ) ^ e ≤ |x|) (h2 : |x| < 2 ^ (e + 1))
    (hm : rne (x / 2 ^ (e - 23)) = m) :
    fl32 x = (m : ℚ) * 2 ^ (e - 23) := by
  have hax : (0 : ℚ) < |x| := abs_pos.2 hx
  have hle : e ≤ Int.log 2 |x| := by
    rw [← Int.zpow_le_iff_le_log (by norm_num : 1 < 2) hax]
    exact_mod_cast h1
  have hlt : Int.log 2 |x| < e + 1 := by
    rw [← Int.lt_zpow_iff_log_lt (by norm_num : 1 < 2) hax]
    exact_mod_cast h2
  have hlog : Int.log 2 |x| = e := by omega
  unfold fl32
  rw [if_neg hx, hlog, hm]

/-- The binary32 rounding of `i16::MAX / 10 = 3276.7`. -/
theorem fl32_3276_7 : fl32 (32767 / 10) = 13421363 / 4096 := by
  have h : fl32 (32767 / 10) = ((13421363 : ℤ) : ℚ) * 2 ^ ((11 : ℤ) - 23) := by
    apply fl32_eq (by norm_num)
    · rw [abs_of_pos (by norm_num)]
      norm_num
    · rw [abs_of_pos (by norm_num)]
      norm_num
    · apply rne_eq_low (f := 13421363) <;> norm_num
  rw [h]
  norm_num

/-- The binary32 rounding of 3276.8. -/
theorem fl32_3276_8 : fl32 (16384 / 5) = 13421773 / 4096 := by
  have h : fl32 (16384 / 5) = ((13421773 : ℤ) : ℚ) * 2 ^ ((11 : ℤ) - 23) := by
    apply fl32_eq (by norm_num)
    · rw [abs_of_pos (by norm_num)]
      norm_num
    · rw [abs_of_pos (by norm_num)]
      norm_num
    · apply rne_eq_high (f := 13421772) <;> norm_num
  rw [h]
  norm_num

/-- The binary32 rounding of `i16::MIN / 10 = -3276.8`. -/
theorem fl32_neg_3276_8 : fl32 (-32768 / 10) = -(13421773 / 4096) := by
  have h : fl32 (-32768 / 10) =
      ((-13421773 : ℤ) : ℚ) * 2 ^ ((11 : ℤ) - 23) := by
    apply fl32_eq (by norm_num)
    · rw [abs_of_neg (by norm_num)]
      norm_num
    · rw [abs_of_neg (by norm_num)]
      norm_num
    · apply rne_eq_low (f := -13421773) <;> push_cast <;> norm_num
  rw [h]
  norm_num

/-- The binary32 rounding of -3276.9. -/
theorem fl32_neg_3276_9 : fl32 (-32769 / 10) = -(13422182 / 4096) := by
  have h : fl32 (-32769 / 10) =
      ((-13422182 : ℤ) : ℚ) * 2 ^ ((11 : ℤ) - 23) := by
    apply fl32_eq (by norm_num)
    · rw [abs_of_neg (by norm_num)]
      norm_num
    · rw [abs_of_neg (by norm_num)]
      norm_num
    · apply rne_eq_high (f := -13422183) <;> push_cast <;> norm_num
  rw [h]
  norm_num

/-- The program's upper range constant as a dyadic rational:
3276.699951171875. -/
theorem temperature_max32_eq : TEMPERATURE_MAX32 = 13421363 / 4096 := by
  unfold TEMPERATURE_MAX32
  exact fl32_3276_7

/-- The program's lower range constant as a dyadic rational:
-3276.800048828125. -/
theorem temperature_min32_eq : TEMPERATURE_MIN32 = -(13421773 / 4096) := by
  unfold TEMPERATURE_MIN32
  exact fl32_neg_3276_8

/-- Multiplying the rounded upper constant by 10 in binary32 rounds up to
exactly 32767 (exact product 32766.99951171875). -/
theorem fl32_prod_max :
    fl32 ((13421363 / 4096 : ℚ) * 10) = ((32767 : ℤ) : ℚ) := by
  have h : fl32 ((13421363 / 4096 : ℚ) * 10) =
      ((16776704 : ℤ) : ℚ) * 2 ^ ((14 : ℤ) - 23) := by
    apply fl32_eq (by norm_num)
    · rw [abs_of_pos (by norm_num)]
      norm_num
    · rw [abs_of_pos (by norm_num)]
      norm_num
    · apply rne_eq_high (f := 16776703) <;> push_cast <;> norm_num
  rw [h]
  norm_num

/-- Multiplying the rounded lower constant by 10 in binary32 rounds to
exactly -32768 (exact product -32768.00048828125). -/
theorem fl32_prod_min :
    fl32 ((-(13421773 / 4096) : ℚ) * 10) = ((-32768 : ℤ) : ℚ) := by
  have h : fl32 ((-(13421773 / 4096) : ℚ) * 10) =
      ((-8388608 : ℤ) : ℚ) * 2 ^ ((15 : ℤ) - 23) := by
    apply fl32_eq (by norm_num)
    · rw [abs_of_neg (by norm_num)]
      norm_num
    · rw [abs_of_neg (by norm_num)]
      norm_num
    · apply rne_eq_high (f := -8388609) <;> push_cast <;> norm_num
  rw [h]
  norm_num

/-- Rounding to binary32 moves a value of magnitude below `2 ^ 16` by at
most half an ulp of that range. -/
theorem abs_fl32_sub_le {x : ℚ} (hx : |x| < 2 ^ 16) :
    |fl32 x - x| ≤ 1 / 512 := by
  by_cases h0 : x = 0
  · subst h0
    simp [fl32]
  have hax : (0 : ℚ) < |x| := abs_pos.2 h0
  have hle : Int.log 2 |x| ≤ 15 := by
    have h16 : Int.log 2 |x| < 16 := by
      rw [← Int.lt_zpow_iff_log_lt (by norm_num : 1 < 2) hax]
      exact_mod_cast hx
    omega
  have hg : (0 : ℚ) < 2 ^ (Int.log 2 |x| - 23) := by positivity
  have hgle : (2 : ℚ) ^ (Int.log 2 |x| - 23) ≤ 2 ^ (-8 : ℤ) :=
    zpow_le_zpow_right₀ (by norm_num) (by omega)
  set g : ℚ := 2 ^ (Int.log 2 |x| - 23) with hgdef
  set y : ℚ := x / g with hydef
  have hfl : fl32 x = ((rne y : ℤ) : ℚ) * g := by
    unfold fl32
    rw [if_neg h0]
  have hxg : x = y * g := (div_mul_cancel₀ x (ne_of_gt hg)).symm
  have hr := abs_rne_sub_le y
  calc |fl32 x - x|
      = |(rne y : ℚ) - y| * g := by
        rw [hfl]
        rw [hxg]
        rw [← sub_mul, abs_mul, abs_of_pos hg]
    _ ≤ 1 / 2 * g := mul_le_mul_of_nonneg_right hr (le_of_lt hg)
    _ ≤ 1 / 2 * 2 ^ (-8 : ℤ) := by
        apply mul_le_mul_of_nonneg_left hgle
        norm_num
    _ = 1 / 512 := by
        norm_num

/-- Truncation toward zero stays at or below a nonnegative bound that the
value does not reach plus one. -/
theorem ratTrunc_le_of_lt {q : ℚ} {hi : ℤ} (h0 : 0 ≤ hi)
    (h : q < (hi : ℚ) + 1) : ratTrunc q ≤ hi := by
  unfold ratTrunc
  split_ifs with hq
  · have : ⌊q⌋ < hi + 1 := Int.floor_lt.2 (by push_cast; linarith)
    omega
  · have : ⌈q⌉ ≤ 0 := Int.ceil_le.2 (by push_cast; linarith [not_le.1 hq])
    omega

/-- Truncation toward zero stays at or above a nonpositive bound that the
value exceeds minus one. -/
theorem le_ratTrunc_of_lt {q : ℚ} {lo : ℤ} (h0 : lo ≤ 0)
    (h : (lo : ℚ) - 1 < q) : lo ≤ ratTrunc q := by
  unfold ratTrunc
  split_ifs with hq
  · have : 0 ≤ ⌊q⌋ := Int.floor_nonneg.2 hq
    omega
  · have : lo - 1 < ⌈q⌉ := Int.lt_ceil.2 (by push_cast; linarith)
    omega

/-- In the bit-accurate model a finite input is rejected with the
temperature-encoding error exactly when it lies outside the rounded
constant interval. -/
theorem encode_temperature32_error_iff (q : ℚ) :
    encode_temperature32 (.finite q) =
        .error (.temperatureEncodingError (.finite q)) ↔
      (q < TEMPERATURE_MIN32 ∨ TEMPERATURE_MAX32 < q) := by
  unfold encode_temperature32
  split_ifs with h <;>
    simp only [F32.flt, F32.fgt, Bool.or_eq_true, decide_eq_true_eq] at h <;>
    simp [h]

/-- On accepted inputs the bit-accurate model multiplies by 10 with
binary32 rounding, truncates toward zero and serializes little-endian
(the saturation of the cast never engages). -/
theorem encode_temperature32_ok {q : ℚ} (h1 : TEMPERATURE_MIN32 ≤ q)
    (h2 : q ≤ TEMPERATURE_MAX32) :
    encode_temperature32 (.finite q) =
      .ok (i16_to_le_bytes (ratTrunc (fl32 (q * 10)))) := by
  rw [temperature_min32_eq] at h1
  rw [temperature_max32_eq] at h2
  have habs : |q * 10| < 2 ^ 16 := by
    rw [abs_lt]
    constructor <;> linarith
  have happ := abs_fl32_sub_le habs
  rw [abs_le] at happ
  have hb1 : ratTrunc (fl32 (q * 10)) ≤ 32767 :=
    ratTrunc_le_of_lt (by norm_num) (by push_cast; linarith)
  have hb2 : -32768 ≤ ratTrunc (fl32 (q * 10)) :=
    le_ratTrunc_of_lt (by norm_num) (by push_cast; linarith)
  unfold encode_temperature32
  rw [if_neg]
  · simp only [F32.mul32, F32.as_i16]
    congr 2
    omega
  · simp only [F32.flt, F32.fgt, Bool.or_eq_true, decide_eq_true_eq]
    rw [temperature_min32_eq, temperature_max32_eq]
    push_neg
    constructor <;> linarith

/-- C5, counterexample: the claim states that `encode_temperature` fails
for every input outside `[i16::MIN / 10, i16::MAX / 10]` and that each
successful encoding multiplies by 10 and truncates toward zero; but in
the bit-accurate binary32 model the representable input
-13421773/4096 = -3276.800048828125 (the program's own rounded lower
constant) lies outside that interval and still encodes to `Ok([0x00,
0x80])`, and the representable in-interval input 13421363/4096 =
3276.699951171875 encodes to `Ok([0xFF, 0x7F])` although the exact
multiply-and-truncate prescription yields 32766, i.e. bytes
`[0xFE, 0x7F]`. -/
theorem claim_C5_counterexample :
    encode_temperature32 (.finite (-(13421773 / 4096))) = .ok (0x00, 0x80) ∧
    ((-(13421773 / 4096) : ℚ) < -32768 / 10) ∧
    encode_temperature32 (.finite (13421363 / 4096)) = .ok (0xFF, 0x7F) ∧
    ((-32768 / 10 : ℚ) ≤ 13421363 / 4096) ∧
    ((13421363 / 4096 : ℚ) ≤ 32767 / 10) ∧
    i16_to_le_bytes (ratTrunc ((13421363 / 4096 : ℚ) * 10)) =
      (0xFE, 0x7F) := by
  refine ⟨?_, by norm_num, ?_, by norm_num, by norm_num, ?_⟩
  · rw [encode_temperature32_ok temperature_min32_eq.le
      (by rw [temperature_max32_eq]; norm_num)]
    rw [fl32_prod_min, ratTrunc_intCast]
    decide
  · rw [encode_temperature32_ok
      (by rw [temperature_min32_eq]; norm_num) temperature_max32_eq.ge]
    rw [fl32_prod_max, ratTrunc_intCast]
    decide
  · have hfl : ⌊(13421363 / 4096 : ℚ) * 10⌋ = 32766 :=
      Int.floor_eq_iff.2 (by constructor <;> push_cast <;> norm_num)
    unfold ratTrunc
    rw [if_pos (by norm_num), hfl]
    decide

/-- C5, amended: `encode_temperature`'s range guard uses the rounded
binary32 constants `fl(i16::MIN / 10) = -3276.800048828125` and
`fl(i16::MAX / 10) = 3276.699951171875` and fails with the
temperature-encoding error exactly for finite inputs outside that
rounded interval (never clamping); the binary32 values denoted by the
literals 3276.8 and -3276.9 fail, while those denoted by 3276.7 and
-3276.8 (the rounded constants themselves) succeed, encoding 0x7FFF and
0x8000; each successful encoding multiplies by 10 in binary32 (round to
nearest, ties to even), truncates toward zero to a signed 16-bit
integer, and serializes little-endian. -/
theorem claim_C5_amended :
    TEMPERATURE_MIN32 = -(13421773 / 4096) ∧
    TEMPERATURE_MAX32 = 13421363 / 4096 ∧
    (∀ q : ℚ,
      (encode_temperature32 (.finite q) =
          .error (.temperatureEncodingError (.finite q)) ↔
        (q < TEMPERATURE_MIN32 ∨ TEMPERATURE_MAX32 < q))) ∧
    (∀ q : ℚ, TEMPERATURE_MIN32 ≤ q → q ≤ TEMPERATURE_MAX32 →
      encode_temperature32 (.finite q) =
        .ok (i16_to_le_bytes (ratTrunc (fl32 (q * 10))))) ∧
    (fl32 3276.8 = 13421773 / 4096 ∧
      encode_temperature32 (.finite (fl32 3276.8)) =
        .error (.temperatureEncodingError (.finite (fl32 3276.8)))) ∧
    (fl32 (-3276.9) = -(13422182 / 4096) ∧
      encode_temperature32 (.finite (fl32 (-3276.9))) =
        .error (.temperatureEncodingError (.finite (fl32 (-3276.9))))) ∧
    (fl32 3276.7 = TEMPERATURE_MAX32 ∧
      encode_temperature32 (.finite (fl32 3276.7)) = .ok (0xFF, 0x7F)) ∧
    (fl32 (-3276.8) = TEMPERATURE_MIN32 ∧
      encode_temperature32 (.finite (fl32 (-3276.8))) =
        .ok (0x00, 0x80)) := by
  have h78 : (3276.8 : ℚ) = 16384 / 5 := by norm_num
  have h79 : ((-3276.9) : ℚ) = -32769 / 10 := by norm_num
  have h77 : (3276.7 : ℚ) = 32767 / 10 := by norm_num
  have h78n : ((-3276.8) : ℚ) = -32768 / 10 := by norm_num
  refine ⟨temperature_min32_eq, temperature_max32_eq,
    encode_temperature32_error_iff,
    fun q h1 h2 => encode_temperature32_ok h1 h2, ⟨?_, ?_⟩, ⟨?_, ?_⟩,
    ⟨?_, ?_⟩, ⟨?_, ?_⟩⟩
  · rw [h78, fl32_3276_8]
  · rw [h78, fl32_3276_8]
    exact (encode_temperature32_error_iff _).2
      (.inr (by rw [temperature_max32_eq]; norm_num))
  · rw [h79, fl32_neg_3276_9]
  · rw [h79, fl32_neg_3276_9]
    exact (encode_temperature32_error_iff _).2
      (.inl (by rw [temperature_min32_eq]; norm_num))
  · rw [h77]
    rfl
  · rw [h77, fl32_3276_7]
    rw [encode_temperature32_ok
      (by rw [temperature_min32_eq]; norm_num) temperature_max32_eq.ge]
    rw [fl32_prod_max, ratTrunc_intCast]
    decide
  · rw [h78n]
    rfl
  · rw [h78n, fl32_neg_3276_8]
    rw [encode_temperature32_ok temperature_min32_eq.le
      (by rw [temperature_max32_eq]; norm_num)]
    rw [fl32_prod_min, ratTrunc_intCast]
    decide

/-- C5, witness: the success branch of the amended claim applied at 0
degrees. -/
theorem claim_C5_witness :
    encode_temperature32 (.finite 0) =
      .ok (i16_to_le_bytes (ratTrunc (fl32 (0 * 10)))) :=
  claim_C5_amended.2.2.2.1 0
    (by rw [temperature_min32_eq]; norm_num)
    (by rw [temperature_max32_eq]; norm_num)

/-- The lower-bound sentinel -300.0 always encodes, to the little-endian
bytes of -3000. -/
theorem encode_target_temp_none :
    encode_temperature (.finite TARGET_TEMP_NONE) = .ok (0x48, 0xF4) := by
  unfold TARGET_TEMP_NONE
  rw [encode_temperature_ok (by norm_num [TEMPERATURE_MIN])
    (by norm_num [TEMPERATURE_MAX])]
  have h : (((-300) : ℚ) * 10) = ((-3000 : ℤ) : ℚ) := by norm_num
  rw [h, ratTrunc_intCast]
  decide

/-- C6: `set_target_temp(p, t)` behaves exactly as
`set_target_range(p, -300.0..t)`: the lower bound -300.0 always encodes
(to bytes `0x48 0xF4`), a successful call performs the single write
`[0x01, p, low_lo, low_hi, high_lo, high_hi]`, any encoding error of the
upper bound is propagated unchanged (so the call fails exactly when t
fails to encode), and every probe byte is accepted unvalidated. -/
theorem claim_C6 :
    (∀ (probe : ℕ) (target : F32),
      set_target_temp probe target =
        set_target_range probe (.finite (-300)) target) ∧
    encode_temperature (.finite TARGET_TEMP_NONE) = .ok (0x48, 0xF4) ∧
    (∀ (probe : ℕ) (target : F32) (b : ℕ × ℕ),
      encode_temperature target = .ok b →
      set_target_temp probe target =
        .ok ⟨.settingData,
          [SET_TARGET_TEMP_COMMAND, probe, 0x48, 0xF4, b.1, b.2]⟩) ∧
    (∀ (probe : ℕ) (target : F32) (e : Error),
      encode_temperature target = .error e →
      set_target_temp probe target = .error e) := by
  refine ⟨fun probe target => rfl, encode_target_temp_none, ?_, ?_⟩
  · intro probe target b hb
    simp [set_target_temp, set_target_range, encode_target_temp_none, hb,
      Bind.bind, Except.bind, Pure.pure, Except.pure]
  · intro probe target e he
    simp [set_target_temp, set_target_range, encode_target_temp_none, he,
      Bind.bind, Except.bind]

/-- C6, witness: setting probe 0 to target -300.0 performs the single
write `[0x01, 0x00, 0x48, 0xF4, 0x48, 0xF4]`. -/
theorem claim_C6_witness :
    set_target_temp 0 (.finite TARGET_TEMP_NONE) =
      .ok ⟨.settingData,
        [SET_TARGET_TEMP_COMMAND, 0, 0x48, 0xF4, 0x48, 0xF4]⟩ :=
  claim_C6.2.2.1 0 (.finite TARGET_TEMP_NONE) (0x48, 0xF4)
    encode_target_temp_none

/-- C8: for every 16-bit value u, `uuid16_to_uuid128 u` equals the
standard Bluetooth SIG 128-bit expansion `(u << 96) | base_uuid`; in
particular the six fixed UUIDs 0xFFF0 through 0xFFF5 expand to 128-bit
values over this base. -/
theorem claim_C8 :
    (∀ u : ℕ, u < 2 ^ 16 →
      uuid16_to_uuid128 u = (u <<< 96) ||| BASE_UUID) ∧
    uuid16_to_uuid128 0xFFF0 = 0x0000FFF000001000800000805F9B34FB ∧
    uuid16_to_uuid128 0xFFF1 = 0x0000FFF100001000800000805F9B34FB ∧
    uuid16_to_uuid128 0xFFF2 = 0x0000FFF200001000800000805F9B34FB ∧
    uuid16_to_uuid128 0xFFF3 = 0x0000FFF300001000800000805F9B34FB ∧
    uuid16_to_uuid128 0xFFF4 = 0x0000FFF400001000800000805F9B34FB ∧
    uuid16_to_uuid128 0xFFF5 = 0x0000FFF500001000800000805F9B34FB := by
  refine ⟨?_, by decide, by decide, by decide, by decide, by decide, by decide⟩
  intro u hu
  unfold uuid16_to_uuid128
  rw [Nat.mod_eq_of_lt hu, Nat.shiftLeft_eq]
  have h2 : BASE_UUID < 2 ^ 96 := by unfold BASE_UUID; norm_num
  have h1 : u * 2 ^ 96 ≤ (2 ^ 16 - 1) * 2 ^ 96 :=
    Nat.mul_le_mul_right _ (by omega)
  have hlt : u * 2 ^ 96 + BASE_UUID < 2 ^ 128 := by
    unfold BASE_UUID
    norm_num at h1 ⊢
    omega
  rw [Nat.mod_eq_of_lt hlt, Nat.mul_comm u (2 ^ 96),
    Nat.mul_add_lt_is_or h2 u, Nat.mul_comm]

/-- C8, witness: the expansion equation applied at the service UUID
0xFFF0. -/
theorem claim_C8_witness :
    uuid16_to_uuid128 0xFFF0 = (0xFFF0 <<< 96) ||| BASE_UUID :=
  claim_C8.1 0xFFF0 (by decide)

/-- Appending digit runs composes the accumulating hexadecimal parser. -/
theorem parseHexAcc_append : ∀ (l1 : List Char) (acc : ℕ) (l2 : List Char),
    parseHexAcc acc (l1 ++ l2) =
      (parseHexAcc acc l1).bind fun a => parseHexAcc a l2
  | [], acc, l2 => rfl
  | c :: rest, acc, l2 => by
    simp only [List.cons_append, parseHexAcc]
    cases h : hexDigitVal c
    · rfl
    · exact parseHexAcc_append rest _ l2

/-- Formatting a digit value and reading it back is the identity. -/
theorem hexDigitVal_hexDigitChar :
    ∀ d : ℕ, d < 16 → hexDigitVal (hexDigitChar d) = some d := by decide

/-- Parsing the (reversed, i.e. most-significant-first) digit run of `n`
appends `n` to the shifted accumulator. -/
theorem parseHexAcc_hexDigitsRev_reverse :
    ∀ n acc : ℕ, parseHexAcc acc (hexDigitsRev n).reverse =
      some (acc * 16 ^ (hexDigitsRev n).length + n) := by
  intro n
  induction n using Nat.strong_induction_on with
  | _ n ih =>
    cases n with
    | zero => intro acc; simp [hexDigitsRev, parseHexAcc]
    | succ n =>
      intro acc
      rw [hexDigitsRev, List.reverse_cons, parseHexAcc_append,
        ih ((n + 1) / 16) (Nat.div_lt_self (Nat.succ_pos n) (by norm_num)) acc]
      have hd := hexDigitVal_hexDigitChar ((n + 1) % 16)
        (Nat.mod_lt _ (by norm_num))
      simp only [Option.some_bind, parseHexAcc, hd, List.length_cons]
      congr 1
      calc 16 * (acc * 16 ^ (hexDigitsRev ((n + 1) / 16)).length
              + (n + 1) / 16) + (n + 1) % 16
          = acc * 16 ^ ((hexDigitsRev ((n + 1) / 16)).length + 1)
              + (16 * ((n + 1) / 16) + (n + 1) % 16) := by ring
        _ = acc * 16 ^ ((hexDigitsRev ((n + 1) / 16)).length + 1) + (n + 1) := by
            rw [Nat.div_add_mod]

/-- Parsing the hexadecimal rendering of `n` recovers `n`. -/
theorem parseHexAcc_toHexString (n : ℕ) :
    parseHexAcc 0 (toHexString n) = some n := by
  unfold toHexString
  split_ifs with h
  · subst h; decide
  · have := parseHexAcc_hexDigitsRev_reverse n 0
    simpa using this

/-- Leading zero padding does not change the parsed value. -/
theorem parseHexAcc_replicate_zero (k : ℕ) (s : List Char) :
    parseHexAcc 0 (List.replicate k (Char.ofNat 48) ++ s) =
      parseHexAcc 0 s := by
  induction k with
  | zero => rfl
  | succ k ih =>
    rw [List.replicate_succ, List.cons_append]
    have h0 : hexDigitVal (Char.ofNat 48) = some 0 := by decide
    simp only [parseHexAcc, h0]
    simpa using ih

/-- Every character emitted by the digit formatter is a hexadecimal
digit. -/
theorem hexDigitVal_isSome_of_mem_hexDigitsRev :
    ∀ n : ℕ, ∀ c ∈ hexDigitsRev n, (hexDigitVal c).isSome := by
  intro n
  induction n using Nat.strong_induction_on with
  | _ n ih =>
    cases n with
    | zero => intro c hc; simp [hexDigitsRev] at hc
    | succ n =>
      intro c hc
      rw [hexDigitsRev] at hc
      rcases List.mem_cons.1 hc with h | h
      · subst h
        rw [hexDigitVal_hexDigitChar _ (Nat.mod_lt _ (by norm_num))]
        rfl
      · exact ih ((n + 1) / 16)
          (Nat.div_lt_self (Nat.succ_pos n) (by norm_num)) c h

/-- Every character of a zero-padded hexadecimal field is a hexadecimal
digit. -/
theorem hexPad_mem_isSome (w n : ℕ) :
    ∀ c ∈ hexPad w n, (hexDigitVal c).isSome := by
  intro c hc
  unfold hexPad at hc
  rcases List.mem_append.1 hc with h | h
  · rw [List.eq_of_mem_replicate h]
    decide
  · unfold toHexString at h
    split_ifs at h with h0
    · rw [List.mem_singleton.1 h]
      decide
    · exact hexDigitVal_isSome_of_mem_hexDigitsRev n c (List.mem_reverse.1 h)

/-- The hexadecimal rendering of a value is never empty. -/
theorem toHexString_ne_nil (n : ℕ) : toHexString n ≠ [] := by
  unfold toHexString
  split_ifs with h
  · simp
  · cases n with
    | zero => exact absurd rfl h
    | succ n => rw [hexDigitsRev]; simp

/-- Reading a zero-padded hexadecimal field back with
`u128::from_str_radix` recovers the value. -/
theorem fromStrRadix16_hexPad (w n : ℕ) (hn : n < 2 ^ 128) :
    fromStrRadix16 (hexPad w n) = some n := by
  have hne : hexPad w n ≠ [] := by
    unfold hexPad
    intro h
    exact toHexString_ne_nil n (List.append_eq_nil.1 h).2
  have hparse : parseHexAcc 0 (hexPad w n) = some n := by
    unfold hexPad
    rw [parseHexAcc_replicate_zero]
    exact parseHexAcc_toHexString n
  cases hp : hexPad w n with
  | nil => exact absurd hp hne
  | cons c rest =>
    have hc : (hexDigitVal c).isSome :=
      hexPad_mem_isSome w n c (by rw [hp]; exact List.mem_cons_self c rest)
    have hplus : c ≠ Char.ofNat 43 := by
      intro h
      rw [h] at hc
      simp [hexDigitVal] at hc
    rw [← hp]
    unfold fromStrRadix16
    rw [hp]
    simp only [if_neg hplus, ← hp, hparse, if_pos hn]
    rw [hp]
    rfl

/-- Splitting a dash-free string on dashes yields the single segment. -/
theorem splitDash_no_dash (s : List Char)
    (h : ∀ c ∈ s, c ≠ Char.ofNat 45) : splitDash s = [s] := by
  induction s with
  | nil => rfl
  | cons c rest ih =>
    simp only [splitDash]
    rw [if_neg (h c (List.mem_cons_self c rest)),
      ih (fun x hx => h x (List.mem_cons_of_mem c hx))]

/-- Splitting peels off a leading dash-free segment before a dash. -/
theorem splitDash_append (a s : List Char)
    (h : ∀ c ∈ a, c ≠ Char.ofNat 45) :
    splitDash (a ++ Char.ofNat 45 :: s) = a :: splitDash s := by
  induction a with
  | nil => simp [splitDash]
  | cons c rest ih =>
    rw [List.cons_append]
    simp only [splitDash]
    rw [if_neg (h c (List.mem_cons_self c rest)),
      ih (fun x hx => h x (List.mem_cons_of_mem c hx))]

/-- A zero-padded hexadecimal field never contains a dash. -/
theorem hexPad_no_dash (w n : ℕ) : ∀ c ∈ hexPad w n, c ≠ Char.ofNat 45 := by
  intro c hc h45
  have hs := hexPad_mem_isSome w n c hc
  rw [h45] at hs
  exact absurd hs (by decide)

/-- C10: for every 128-bit value u,
`string_to_uuid128 (uuid128_to_string u)` returns `Ok u`; formatting a
UUID128 as its hyphenated hexadecimal representation and parsing it back
is the identity. -/
theorem claim_C10 (u : ℕ) (hu : u < 2 ^ 128) :
    string_to_uuid128 (uuid128_to_string u) = .ok u := by
  unfold uuid128_to_string
  rw [Nat.mod_eq_of_lt hu]
  have hmask16 : (0xFFFF : ℕ) = 2 ^ 16 - 1 := by norm_num
  have hmask48 : (0xFFFFFFFFFFFF : ℕ) = 2 ^ 48 - 1 := by norm_num
  rw [hmask16, hmask48]
  simp only [Nat.and_pow_two_sub_one_eq_mod, Nat.shiftRight_eq_div_pow]
  have hb0 : u / 2 ^ 96 < 2 ^ 128 := lt_of_le_of_lt (Nat.div_le_self u _) hu
  have hb1 : u / 2 ^ 80 % 2 ^ 16 < 2 ^ 128 :=
    lt_of_lt_of_le (Nat.mod_lt _ (by positivity)) (by norm_num)
  have hb2 : u / 2 ^ 64 % 2 ^ 16 < 2 ^ 128 :=
    lt_of_lt_of_le (Nat.mod_lt _ (by positivity)) (by norm_num)
  have hb3 : u / 2 ^ 48 % 2 ^ 16 < 2 ^ 128 :=
    lt_of_lt_of_le (Nat.mod_lt _ (by positivity)) (by norm_num)
  have hb4 : u % 2 ^ 48 < 2 ^ 128 :=
    lt_of_lt_of_le (Nat.mod_lt _ (by positivity)) (by norm_num)
  unfold string_to_uuid128
  rw [splitDash_append _ _ (hexPad_no_dash 8 _),
    splitDash_append _ _ (hexPad_no_dash 4 _),
    splitDash_append _ _ (hexPad_no_dash 4 _),
    splitDash_append _ _ (hexPad_no_dash 4 _),
    splitDash_no_dash _ (hexPad_no_dash 12 _)]
  rw [List.mapM_cons, List.mapM_cons, List.mapM_cons, List.mapM_cons,
    List.mapM_cons, List.mapM_nil]
  rw [fromStrRadix16_hexPad 8 _ hb0, fromStrRadix16_hexPad 4 _ hb1,
    fromStrRadix16_hexPad 4 _ hb2, fromStrRadix16_hexPad 4 _ hb3,
    fromStrRadix16_hexPad 12 _ hb4]
  simp only [Option.pure_def, Option.bind_some, Option.some_bind,
    Nat.shiftLeft_eq]
  norm_num
  omega

/-- C10, witness: the round trip at the account-and-verify UUID value. -/
theorem claim_C10_witness :
    string_to_uuid128
        (uuid128_to_string 0x0000ACAB00001000800000805F9B34FB) =
      .ok 0x0000ACAB00001000800000805F9B34FB :=
  claim_C10 0x0000ACAB00001000800000805F9B34FB (by norm_num)

end CloudBBQ
